import Mathlib

/-!
Shallow embedding of the homography-estimation core (`homography-rs`):
geometry value types (`src/geo.rs`), correspondence pairs and their 2×9
restriction blocks (`src/pairs.rs`), design-matrix assembly and the DLT
solve (`src/functions.rs`), and the public computation API (`src/lib.rs`).

Scalars: the Rust code is generic over a real scalar type (`T: Float` /
`T: RealField`, default `f32`); the embedding uses `ℚ`, an exact field, so
the algebraic formulas are modelled exactly. Matrices are lists of rows
(`List (List ℚ)`); a 2×9 restriction block is a two-element list of
9-element rows. The singular value decomposition is provided by the
external `nalgebra` crate, not by this repository; `solve` therefore takes
the SVD routine as a parameter, mirroring `matrix.svd(false, true)`.
-/

namespace Homography

/-- `Point` from `src/geo.rs`: two scalar coordinates. -/
structure Point where
  x : ℚ
  y : ℚ
deriving DecidableEq

/-- `Line` from `src/geo.rs`: homogeneous coefficients `a·x + b·y + c = 0`. -/
structure Line where
  a : ℚ
  b : ℚ
  c : ℚ
deriving DecidableEq

/-- `Line::from_points` from `src/geo.rs`. -/
def Line.from_points (p1 p2 : Point) : Line :=
  let a := p2.y - p1.y
  let b := p1.x - p2.x
  let c := -a * p1.x - b * p1.y
  ⟨a, b, c⟩

/-- `PointPair` from `src/pairs.rs`. -/
structure PointPair where
  p1 : Point
  p2 : Point
deriving DecidableEq

/-- `LinePair` from `src/pairs.rs`. -/
structure LinePair where
  l1 : Line
  l2 : Line
deriving DecidableEq

/-- `WithRestriction for PointPair::generate_restriction` from `src/pairs.rs`:
the 2×9 constraint block of a point correspondence, rows in the order
`from_rows(&vec![first_row, second_row])` emits them. -/
def PointPair.generate_restriction (self : PointPair) : List (List ℚ) :=
  let p1 := self.p1
  let p2 := self.p2
  [ [0, 0, 0, -p1.x, -p1.y, -1, p1.x * p2.y, p1.y * p2.y, p2.y],
    [p1.x, p1.y, 1, 0, 0, 0, -p1.x * p2.x, -p1.y * p2.x, -p2.x] ]

/-- `WithRestriction for LinePair::generate_restriction` from `src/pairs.rs`. -/
def LinePair.generate_restriction (self : LinePair) : List (List ℚ) :=
  let l1 := self.l1
  let l2 := self.l2
  [ [0, -l1.c * l2.a, l1.b * l2.a, 0, -l1.c * l2.b, l1.b * l2.b,
     0, -l1.c * l2.c, l1.b * l2.c],
    [l1.c * l2.a, 0, -l1.a * l2.a, l1.c * l2.b, 0, -l1.a * l2.b,
     l1.c * l2.c, 0, -l1.a * l2.c] ]

/-- A `&dyn WithRestriction` trait object: either correspondence kind. -/
inductive Correspondence where
  | point : PointPair → Correspondence
  | line : LinePair → Correspondence
deriving DecidableEq

/-- Dynamic dispatch of `generate_restriction` on a trait object. -/
def Correspondence.generate_restriction : Correspondence → List (List ℚ)
  | .point p => p.generate_restriction
  | .line l => l.generate_restriction

/-- The `for (i, m) in matrixes.iter().enumerate()` loop of
`generate_matrix_from_correspondences` and `HomographyRestrictions::compute`:
write row 0 of block `i` to matrix row `i*2` and row 1 to row `i*2+1`. -/
def place_blocks : List (List ℚ) → List (List (List ℚ)) → Nat → List (List ℚ)
  | m, [], _ => m
  | m, b :: rest, i =>
      place_blocks ((m.set (i * 2) (b.getD 0 [])).set (i * 2 + 1) (b.getD 1 [])) rest (i + 1)

/-- `generate_matrix_from_correspondences` from `src/functions.rs`:
zero matrix of `max(2·len, 9)` rows and 9 columns, blocks written in. -/
def generate_matrix_from_correspondences (correspondences : List Correspondence) :
    List (List ℚ) :=
  let matrixes := correspondences.map Correspondence.generate_restriction
  let rows := max (2 * matrixes.length) 9
  place_blocks (List.replicate rows (List.replicate 9 (0 : ℚ))) matrixes 0

/-- Output of `nalgebra`'s `matrix.svd(false, true)`: the right singular
vectors (rows of `V^T`) and the singular values. The SVD routine itself is
external to this repository. -/
structure SVD where
  v_t : List (List ℚ)
  singular_values : List ℚ

/-- `HomographySolution` from `src/functions.rs`: a 3×3 matrix plus the
returned scalar value. -/
structure HomographySolution where
  matrix : Fin 3 → Fin 3 → ℚ
  value : ℚ

/-- `nalgebra`'s `Matrix3::from_vec`: column-major packing of 9 scalars,
entry `(i,j)` is element `j*3 + i`. -/
def matrix3_from_vec (v : List ℚ) : Fin 3 → Fin 3 → ℚ :=
  fun i j => v.getD (j.val * 3 + i.val) 0

/-- `nalgebra`'s `Matrix3::transpose`. -/
def matrix3_transpose (m : Fin 3 → Fin 3 → ℚ) : Fin 3 → Fin 3 → ℚ :=
  fun i j => m j i

/-- `solve` from `src/functions.rs`, with the external SVD routine passed in:
take the last row of `V^T`, pack it column-major into a 3×3 matrix, transpose,
and return it with `singular_values[n]`. -/
def solve (svd_fn : List (List ℚ) → SVD) (matrix : List (List ℚ)) :
    HomographySolution :=
  let svd := svd_fn matrix
  let n := svd.v_t.length - 1
  let last_column := svd.v_t.getD n []
  { matrix := matrix3_transpose (matrix3_from_vec last_column)
    value := svd.singular_values.getD n 0 }

/-- `HomographyRestrictions` from `src/lib.rs`. -/
structure HomographyRestrictions where
  restrictions : List (List (List ℚ))

/-- The design matrix assembled inside `HomographyRestrictions::compute`
(`src/lib.rs`): `restrictions.len() * 2` rows of zeros, blocks written in.
Note: no `max(·, 9)` padding on this path. -/
def HomographyRestrictions.compute_matrix (self : HomographyRestrictions) :
    List (List ℚ) :=
  place_blocks
    (List.replicate (self.restrictions.length * 2) (List.replicate 9 (0 : ℚ)))
    self.restrictions 0

/-- `HomographyRestrictions::compute` from `src/lib.rs`: assemble and solve. -/
def HomographyRestrictions.compute (self : HomographyRestrictions)
    (svd_fn : List (List ℚ) → SVD) : HomographySolution :=
  solve svd_fn self.compute_matrix

/-- `HomographyComputation` from `src/lib.rs`. -/
structure HomographyComputation where
  point_correspondences : List PointPair
  line_correspondences : List LinePair
deriving DecidableEq

/-- `HomographyComputation::new`. -/
def HomographyComputation.new : HomographyComputation := ⟨[], []⟩

/-- `HomographyComputation::add_point_correspondence`: `Vec::push`. -/
def HomographyComputation.add_point_correspondence
    (self : HomographyComputation) (p1 p2 : Point) : HomographyComputation :=
  { self with point_correspondences := self.point_correspondences ++ [⟨p1, p2⟩] }

/-- `HomographyComputation::add_line_correspondence`: `Vec::push`. -/
def HomographyComputation.add_line_correspondence
    (self : HomographyComputation) (l1 l2 : Line) : HomographyComputation :=
  { self with line_correspondences := self.line_correspondences ++ [⟨l1, l2⟩] }

/-- `HomographyComputation::get_restrictions`: push each point pair's block
in order, then each line pair's block in order. -/
def HomographyComputation.get_restrictions (self : HomographyComputation) :
    HomographyRestrictions :=
  ⟨self.point_correspondences.map PointPair.generate_restriction ++
    self.line_correspondences.map LinePair.generate_restriction⟩

/-- One call on the mutable `HomographyComputation` builder. -/
inductive AddOp where
  | addPoint : Point → Point → AddOp
  | addLine : Line → Line → AddOp
deriving DecidableEq

/-- Run one builder call. -/
def applyOp (hc : HomographyComputation) : AddOp → HomographyComputation
  | .addPoint p1 p2 => hc.add_point_correspondence p1 p2
  | .addLine l1 l2 => hc.add_line_correspondence l1 l2

/-- Run a sequence of builder calls in order. -/
def applyOps (hc : HomographyComputation) (ops : List AddOp) : HomographyComputation :=
  ops.foldl applyOp hc

/-- The point pairs a call sequence adds, in call order. -/
def pointPairsOf (ops : List AddOp) : List PointPair :=
  ops.filterMap fun op =>
    match op with
    | .addPoint p1 p2 => some ⟨p1, p2⟩
    | .addLine _ _ => none

/-- The line pairs a call sequence adds, in call order. -/
def linePairsOf (ops : List AddOp) : List LinePair :=
  ops.filterMap fun op =>
    match op with
    | .addPoint _ _ => none
    | .addLine l1 l2 => some ⟨l1, l2⟩

/-! ## Helper lemmas -/

/-- Each point-pair block has exactly 2 rows of 9 entries. -/
theorem PointPair.restriction_shape_point (p : PointPair) :
    p.generate_restriction.length = 2 ∧
      ∀ r ∈ p.generate_restriction, r.length = 9 := by
  refine ⟨rfl, ?_⟩
  intro r hr
  simp only [PointPair.generate_restriction, List.mem_cons, List.not_mem_nil,
    or_false] at hr
  rcases hr with rfl | rfl <;> rfl

/-- Each line-pair block has exactly 2 rows of 9 entries. -/
theorem LinePair.restriction_shape_line (l : LinePair) :
    l.generate_restriction.length = 2 ∧
      ∀ r ∈ l.generate_restriction, r.length = 9 := by
  refine ⟨rfl, ?_⟩
  intro r hr
  simp only [LinePair.generate_restriction, List.mem_cons, List.not_mem_nil,
    or_false] at hr
  rcases hr with rfl | rfl <;> rfl

/-- Each block of either correspondence kind has 2 rows of 9 entries. -/
theorem Correspondence.restriction_shape_corr (c : Correspondence) :
    c.generate_restriction.length = 2 ∧
      ∀ r ∈ c.generate_restriction, r.length = 9 := by
  cases c with
  | point p => exact p.restriction_shape_point
  | line l => exact l.restriction_shape_line

/-- Writing blocks preserves the row count of the target matrix. -/
theorem place_blocks_length (bs : List (List (List ℚ))) :
    ∀ (m : List (List ℚ)) (i : Nat), (place_blocks m bs i).length = m.length := by
  induction bs with
  | nil => intro m i; rfl
  | cons b rest ih =>
      intro m i
      simp only [place_blocks]
      rw [ih, List.length_set, List.length_set]

/-- Rows strictly below the write window of `place_blocks` are untouched. -/
theorem place_blocks_get_lt (bs : List (List (List ℚ))) :
    ∀ (m : List (List ℚ)) (i j : Nat), j < i * 2 →
      (place_blocks m bs i)[j]? = m[j]? := by
  induction bs with
  | nil => intro m i j _; rfl
  | cons b rest ih =>
      intro m i j hj
      simp only [place_blocks]
      rw [ih _ (i + 1) j (by omega),
        List.getElem?_set_ne (by omega), List.getElem?_set_ne (by omega)]

/-- Block `k` of the sequence written starting at position `i` lands on matrix
rows `(i+k)*2` and `(i+k)*2+1`. -/
theorem place_blocks_get (bs : List (List (List ℚ))) :
    ∀ (m : List (List ℚ)) (i k : Nat) (hk : k < bs.length),
      (i + k) * 2 + 1 < m.length →
      (place_blocks m bs i)[(i + k) * 2]? = some ((bs.get ⟨k, hk⟩).getD 0 []) ∧
      (place_blocks m bs i)[(i + k) * 2 + 1]? = some ((bs.get ⟨k, hk⟩).getD 1 []) := by
  induction bs with
  | nil => intro m i k hk; exact absurd hk (by simp)
  | cons b rest ih =>
      intro m i k hk hlen
      match k with
      | 0 =>
          simp only [Nat.add_zero] at hlen ⊢
          simp only [place_blocks, List.get]
          constructor
          · rw [place_blocks_get_lt rest _ (i + 1) _ (by omega),
              List.getElem?_set_ne (by omega),
              List.getElem?_set_self (by omega)]
          · rw [place_blocks_get_lt rest _ (i + 1) _ (by omega),
              List.getElem?_set_self (by simp only [List.length_set]; omega)]
      | k' + 1 =>
          have hk' : k' < rest.length := by
            simpa using Nat.lt_of_succ_lt_succ hk
          have hidx : i + (k' + 1) = (i + 1) + k' := by omega
          simp only [place_blocks, hidx]
          have hlen' : ((i + 1) + k') * 2 + 1 <
              (((m.set (i * 2) (b.getD 0 [])).set (i * 2 + 1) (b.getD 1 []))).length := by
            rw [List.length_set, List.length_set]; omega
          have := ih ((m.set (i * 2) (b.getD 0 [])).set (i * 2 + 1) (b.getD 1 []))
            (i + 1) k' hk' hlen'
          simpa using this

/-- Rows at or above the write window of `place_blocks` are untouched. -/
theorem place_blocks_get_ge (bs : List (List (List ℚ))) :
    ∀ (m : List (List ℚ)) (i j : Nat), (i + bs.length) * 2 ≤ j →
      (place_blocks m bs i)[j]? = m[j]? := by
  induction bs with
  | nil => intro m i j _; rfl
  | cons b rest ih =>
      intro m i j hj
      simp only [List.length_cons] at hj
      simp only [place_blocks]
      rw [ih _ (i + 1) j (by omega),
        List.getElem?_set_ne (by omega), List.getElem?_set_ne (by omega)]

/-- If the target rows and all block rows have 9 entries, so do the rows of the
assembled matrix. -/
theorem place_blocks_cols (bs : List (List (List ℚ))) :
    ∀ (m : List (List ℚ)) (i : Nat),
      (∀ r ∈ m, r.length = 9) →
      (∀ b ∈ bs, b.length = 2 ∧ ∀ r ∈ b, r.length = 9) →
      ∀ r ∈ place_blocks m bs i, r.length = 9 := by
  induction bs with
  | nil => intro m i hm _ r hr; exact hm r hr
  | cons b rest ih =>
      intro m i hm hbs r hr
      have hb := hbs b (by simp)
      have hb0 : (b.getD 0 []).length = 9 := by
        have h0 : 0 < b.length := by omega
        rw [List.getD_eq_getElem?_getD, List.getElem?_eq_getElem h0]
        exact hb.2 _ (List.getElem_mem h0)
      have hb1 : (b.getD 1 []).length = 9 := by
        have h1 : 1 < b.length := by omega
        rw [List.getD_eq_getElem?_getD, List.getElem?_eq_getElem h1]
        exact hb.2 _ (List.getElem_mem h1)
      refine ih _ (i + 1) ?_ (fun b' hb' => hbs b' (by simp [hb'])) r hr
      intro r' hr'
      rcases List.mem_or_eq_of_mem_set hr' with hr' | rfl
      · rcases List.mem_or_eq_of_mem_set hr' with hr' | rfl
        · exact hm r' hr'
        · exact hb0
      · exact hb1

/-- All blocks held by `get_restrictions` have 2 rows of 9 entries. -/
theorem get_restrictions_block_shape (hc : HomographyComputation) :
    ∀ b ∈ hc.get_restrictions.restrictions,
      b.length = 2 ∧ ∀ r ∈ b, r.length = 9 := by
  intro b hb
  simp only [HomographyComputation.get_restrictions, List.mem_append,
    List.mem_map] at hb
  rcases hb with ⟨p, _, rfl⟩ | ⟨l, _, rfl⟩
  · exact p.restriction_shape_point
  · exact l.restriction_shape_line

/-! ## Claim theorems -/

/-- C1: the point-pair restriction block is exactly
`row0 = [0,0,0,-x,-y,-1,x·y',y·y',y']`, `row1 = [x,y,1,0,0,0,-x·x',-y·x',-x']`;
in particular row 0 at positions 3,4,5 is `(-x,-y,-1)` and row 1 at positions
0,1,2 is `(x,y,1)`. -/
theorem pointpair_restriction_formula (x y xp yp : ℚ) :
    PointPair.generate_restriction ⟨⟨x, y⟩, ⟨xp, yp⟩⟩ =
      [ [0, 0, 0, -x, -y, -1, x * yp, y * yp, yp],
        [x, y, 1, 0, 0, 0, -x * xp, -y * xp, -xp] ] ∧
    ((PointPair.generate_restriction ⟨⟨x, y⟩, ⟨xp, yp⟩⟩).getD 0 []).getD 3 0 = -x ∧
    ((PointPair.generate_restriction ⟨⟨x, y⟩, ⟨xp, yp⟩⟩).getD 0 []).getD 4 0 = -y ∧
    ((PointPair.generate_restriction ⟨⟨x, y⟩, ⟨xp, yp⟩⟩).getD 0 []).getD 5 0 = -1 ∧
    ((PointPair.generate_restriction ⟨⟨x, y⟩, ⟨xp, yp⟩⟩).getD 1 []).getD 0 0 = x ∧
    ((PointPair.generate_restriction ⟨⟨x, y⟩, ⟨xp, yp⟩⟩).getD 1 []).getD 1 0 = y ∧
    ((PointPair.generate_restriction ⟨⟨x, y⟩, ⟨xp, yp⟩⟩).getD 1 []).getD 2 0 = 1 :=
  ⟨rfl, rfl, rfl, rfl, rfl, rfl, rfl⟩

/-- C2: the line-pair restriction block is exactly
`row0 = [0,-c·a',b·a',0,-c·b',b·b',0,-c·c',b·c']`,
`row1 = [c·a',0,-a·a',c·b',0,-a·b',c·c',0,-a·c']`. -/
theorem linepair_restriction_formula (a b c ap bp cp : ℚ) :
    LinePair.generate_restriction ⟨⟨a, b, c⟩, ⟨ap, bp, cp⟩⟩ =
      [ [0, -c * ap, b * ap, 0, -c * bp, b * bp, 0, -c * cp, b * cp],
        [c * ap, 0, -a * ap, c * bp, 0, -a * bp, c * cp, 0, -a * cp] ] :=
  rfl

/-- C6: `Line::from_points` yields `a = y2-y1`, `b = x1-x2`,
`c = -a·x1 - b·y1`. -/
theorem line_from_points_formula (x1 y1 x2 y2 : ℚ) :
    Line.from_points ⟨x1, y1⟩ ⟨x2, y2⟩ =
      ⟨y2 - y1, x1 - x2, -(y2 - y1) * x1 - (x1 - x2) * y1⟩ :=
  rfl

/-- C8: restriction generation and assembly are deterministic: equal inputs
give identical restriction blocks and identical design matrices. -/
theorem restriction_generation_deterministic (c1 c2 : Correspondence)
    (h : c1 = c2) (cs1 cs2 : List Correspondence) (hcs : cs1 = cs2) :
    c1.generate_restriction = c2.generate_restriction ∧
    generate_matrix_from_correspondences cs1 =
      generate_matrix_from_correspondences cs2 :=
  ⟨h ▸ rfl, hcs ▸ rfl⟩

/-- Witness for C8 at a concrete point pair and a concrete mixed list. -/
theorem restriction_generation_deterministic_witness :
    (Correspondence.point ⟨⟨1, 2⟩, ⟨3, 4⟩⟩).generate_restriction =
      (Correspondence.point ⟨⟨1, 2⟩, ⟨3, 4⟩⟩).generate_restriction ∧
    generate_matrix_from_correspondences
        [Correspondence.point ⟨⟨1, 2⟩, ⟨3, 4⟩⟩,
         Correspondence.line ⟨⟨1, 2, 3⟩, ⟨4, 5, 6⟩⟩] =
      generate_matrix_from_correspondences
        [Correspondence.point ⟨⟨1, 2⟩, ⟨3, 4⟩⟩,
         Correspondence.line ⟨⟨1, 2, 3⟩, ⟨4, 5, 6⟩⟩] :=
  restriction_generation_deterministic _ _ rfl _ _ rfl

/-- C10: `add_point_correspondence` appends exactly one pair to the point
list, keeps the existing prefix intact, and leaves the line list unchanged;
symmetrically for `add_line_correspondence`. -/
theorem add_correspondence_frame (hc : HomographyComputation)
    (p1 p2 : Point) (l1 l2 : Line) :
    (hc.add_point_correspondence p1 p2).point_correspondences.length =
      hc.point_correspondences.length + 1 ∧
    (hc.add_point_correspondence p1 p2).point_correspondences.take
      hc.point_correspondences.length = hc.point_correspondences ∧
    (hc.add_point_correspondence p1 p2).point_correspondences[
      hc.point_correspondences.length]? = some ⟨p1, p2⟩ ∧
    (hc.add_point_correspondence p1 p2).line_correspondences =
      hc.line_correspondences ∧
    (hc.add_line_correspondence l1 l2).line_correspondences.length =
      hc.line_correspondences.length + 1 ∧
    (hc.add_line_correspondence l1 l2).line_correspondences.take
      hc.line_correspondences.length = hc.line_correspondences ∧
    (hc.add_line_correspondence l1 l2).line_correspondences[
      hc.line_correspondences.length]? = some ⟨l1, l2⟩ ∧
    (hc.add_line_correspondence l1 l2).point_correspondences =
      hc.point_correspondences := by
  refine ⟨?_, ?_, ?_, rfl, ?_, ?_, ?_, rfl⟩ <;>
    simp [HomographyComputation.add_point_correspondence,
      HomographyComputation.add_line_correspondence,
      List.getElem?_append_right]

/-- C4 (amended): `generate_matrix_from_correspondences` builds a matrix of
`max(2N, 9)` rows and 9 columns, every row at an index at or beyond `2N`
left as the zero row; the design matrix assembled inside
`HomographyRestrictions::compute` instead has exactly `2N` rows (no
padding) and 9 columns. -/
theorem design_matrix_shape (cs : List Correspondence) (hc : HomographyComputation) :
    (generate_matrix_from_correspondences cs).length = max (2 * cs.length) 9 ∧
    (∀ row ∈ generate_matrix_from_correspondences cs, row.length = 9) ∧
    (∀ j, 2 * cs.length ≤ j → j < (generate_matrix_from_correspondences cs).length →
      (generate_matrix_from_correspondences cs)[j]? =
        some (List.replicate 9 (0 : ℚ))) ∧
    hc.get_restrictions.compute_matrix.length =
      (hc.point_correspondences.length + hc.line_correspondences.length) * 2 ∧
    ∀ row ∈ hc.get_restrictions.compute_matrix, row.length = 9 := by
  refine ⟨?_, ?_, ?_, ?_, ?_⟩
  · simp only [generate_matrix_from_correspondences]
    rw [place_blocks_length, List.length_replicate, List.length_map]
  · intro row hrow
    simp only [generate_matrix_from_correspondences] at hrow
    refine place_blocks_cols _ _ _ ?_ ?_ row hrow
    · intro r hr
      rw [List.eq_of_mem_replicate hr]
      rfl
    · intro b hb
      simp only [List.mem_map] at hb
      obtain ⟨c, _, rfl⟩ := hb
      exact c.restriction_shape_corr
  · intro j hj hjlt
    have hlen : (generate_matrix_from_correspondences cs).length =
        max (2 * cs.length) 9 := by
      simp only [generate_matrix_from_correspondences]
      rw [place_blocks_length, List.length_replicate, List.length_map]
    rw [hlen] at hjlt
    simp only [generate_matrix_from_correspondences]
    rw [place_blocks_get_ge _ _ 0 j
      (by simp only [Nat.zero_add, List.length_map]; omega)]
    exact List.getElem?_replicate_of_lt (by simp only [List.length_map]; omega)
  · simp only [HomographyRestrictions.compute_matrix]
    rw [place_blocks_length, List.length_replicate]
    simp [HomographyComputation.get_restrictions]
  · intro row hrow
    simp only [HomographyRestrictions.compute_matrix] at hrow
    refine place_blocks_cols _ _ _ ?_ (get_restrictions_block_shape hc) row hrow
    intro r hr
    rw [List.eq_of_mem_replicate hr]
    rfl

/-- Counterexample to C4 as stated: on the `compute` path one restriction
block yields a 2-row design matrix, not `max(2·1, 9) = 9` rows. -/
theorem design_matrix_shape_cex :
    (HomographyRestrictions.mk
      [PointPair.generate_restriction ⟨⟨1, 2⟩, ⟨3, 4⟩⟩]).compute_matrix.length = 2 ∧
    (2 : Nat) ≠ max (2 * 1) 9 := by
  exact ⟨rfl, by decide⟩

/-- Counterexample to C5 as stated: with zero correspondences the design
matrix built by `HomographyRestrictions::compute` has 0 rows, not 9. -/
theorem degenerate_compute_cex :
    HomographyComputation.new.point_correspondences.length < 4 ∧
    HomographyComputation.new.line_correspondences.length = 0 ∧
    HomographyComputation.new.get_restrictions.compute_matrix.length = 0 ∧
    (0 : Nat) ≠ 9 := by
  decide

/-- C5 (amended): with fewer than 4 point correspondences and no line
correspondences, the `compute`-path design matrix has `2N < 9` rows (it is
not padded); only `generate_matrix_from_correspondences` pads to 9 rows. -/
theorem degenerate_compute_amended (hc : HomographyComputation)
    (hpts : hc.point_correspondences.length < 4)
    (hlines : hc.line_correspondences = []) :
    hc.get_restrictions.compute_matrix.length =
      hc.point_correspondences.length * 2 ∧
    hc.get_restrictions.compute_matrix.length < 9 ∧
    ∀ cs : List Correspondence, cs.length < 5 →
      (generate_matrix_from_correspondences cs).length = 9 := by
  have hA : hc.get_restrictions.compute_matrix.length =
      hc.point_correspondences.length * 2 := by
    simp only [HomographyRestrictions.compute_matrix]
    rw [place_blocks_length, List.length_replicate]
    simp [HomographyComputation.get_restrictions, hlines]
  refine ⟨hA, by rw [hA]; omega, ?_⟩
  intro cs hcs
  simp only [generate_matrix_from_correspondences]
  rw [place_blocks_length, List.length_replicate, List.length_map]
  omega

/-- Witness for the amended C5 at one point correspondence. -/
theorem degenerate_compute_amended_witness :
    (HomographyComputation.new.add_point_correspondence
      ⟨1, 2⟩ ⟨3, 4⟩).get_restrictions.compute_matrix.length =
      (HomographyComputation.new.add_point_correspondence
        ⟨1, 2⟩ ⟨3, 4⟩).point_correspondences.length * 2 ∧
    (HomographyComputation.new.add_point_correspondence
      ⟨1, 2⟩ ⟨3, 4⟩).get_restrictions.compute_matrix.length < 9 ∧
    (generate_matrix_from_correspondences []).length = 9 := by
  have h := degenerate_compute_amended
    (HomographyComputation.new.add_point_correspondence ⟨1, 2⟩ ⟨3, 4⟩)
    (by decide) rfl
  exact ⟨h.1, h.2.1, h.2.2 [] (by decide)⟩

/-- C7: the `i`-th restriction block lands on design-matrix rows `i*2` and
`i*2+1`, in input order, on both assembly paths (free-function assembler and
`HomographyRestrictions::compute`), for any mix of correspondence kinds. -/
theorem row_placement (cs : List Correspondence) (i : Nat) (h : i < cs.length)
    (r : HomographyRestrictions) (j : Nat) (hj : j < r.restrictions.length) :
    (generate_matrix_from_correspondences cs)[i * 2]? =
      some ((cs.get ⟨i, h⟩).generate_restriction.getD 0 []) ∧
    (generate_matrix_from_correspondences cs)[i * 2 + 1]? =
      some ((cs.get ⟨i, h⟩).generate_restriction.getD 1 []) ∧
    r.compute_matrix[j * 2]? = some ((r.restrictions.get ⟨j, hj⟩).getD 0 []) ∧
    r.compute_matrix[j * 2 + 1]? =
      some ((r.restrictions.get ⟨j, hj⟩).getD 1 []) := by
  have hbs : i < (cs.map Correspondence.generate_restriction).length := by
    simpa using h
  have h1 := place_blocks_get (cs.map Correspondence.generate_restriction)
    (List.replicate (max (2 * (cs.map Correspondence.generate_restriction).length) 9)
      (List.replicate 9 (0 : ℚ)))
    0 i hbs (by simp only [List.length_replicate, List.length_map]; omega)
  have h2 := place_blocks_get r.restrictions
    (List.replicate (r.restrictions.length * 2) (List.replicate 9 (0 : ℚ)))
    0 j hj (by simp only [List.length_replicate]; omega)
  simp only [Nat.zero_add, List.get_eq_getElem, List.getElem_map] at h1 h2
  refine ⟨?_, ?_, ?_, ?_⟩
  · simpa only [generate_matrix_from_correspondences, List.length_map,
      List.get_eq_getElem] using h1.1
  · simpa only [generate_matrix_from_correspondences, List.length_map,
      List.get_eq_getElem] using h1.2
  · simpa only [HomographyRestrictions.compute_matrix,
      List.get_eq_getElem] using h2.1
  · simpa only [HomographyRestrictions.compute_matrix,
      List.get_eq_getElem] using h2.2

/-- Witness for C7: a one-point-pair assembly and a one-line-pair `compute`
assembly, block 0 at rows 0 and 1. -/
theorem row_placement_witness :
    (generate_matrix_from_correspondences
      [Correspondence.point ⟨⟨1, 2⟩, ⟨3, 4⟩⟩])[0 * 2]? =
      some ((Correspondence.point ⟨⟨1, 2⟩, ⟨3, 4⟩⟩).generate_restriction.getD 0 []) ∧
    (generate_matrix_from_correspondences
      [Correspondence.point ⟨⟨1, 2⟩, ⟨3, 4⟩⟩])[0 * 2 + 1]? =
      some ((Correspondence.point ⟨⟨1, 2⟩, ⟨3, 4⟩⟩).generate_restriction.getD 1 []) ∧
    (HomographyRestrictions.mk
      [LinePair.generate_restriction ⟨⟨1, 2, 3⟩, ⟨4, 5, 6⟩⟩]).compute_matrix[0 * 2]? =
      some ((LinePair.generate_restriction ⟨⟨1, 2, 3⟩, ⟨4, 5, 6⟩⟩).getD 0 []) ∧
    (HomographyRestrictions.mk
      [LinePair.generate_restriction ⟨⟨1, 2, 3⟩, ⟨4, 5, 6⟩⟩]).compute_matrix[0 * 2 + 1]? =
      some ((LinePair.generate_restriction ⟨⟨1, 2, 3⟩, ⟨4, 5, 6⟩⟩).getD 1 []) :=
  row_placement [Correspondence.point ⟨⟨1, 2⟩, ⟨3, 4⟩⟩] 0 (by decide)
    (HomographyRestrictions.mk [LinePair.generate_restriction ⟨⟨1, 2, 3⟩, ⟨4, 5, 6⟩⟩])
    0 (by decide)

/-- Running builder calls appends the point pairs and line pairs they add,
each kind in call order, to the respective list. -/
theorem applyOps_state (ops : List AddOp) :
    ∀ hc : HomographyComputation,
      (applyOps hc ops).point_correspondences =
        hc.point_correspondences ++ pointPairsOf ops ∧
      (applyOps hc ops).line_correspondences =
        hc.line_correspondences ++ linePairsOf ops := by
  induction ops with
  | nil => intro hc; simp [applyOps, pointPairsOf, linePairsOf]
  | cons op rest ih =>
      intro hc
      cases op with
      | addPoint p1 p2 =>
          have h := ih (hc.add_point_correspondence p1 p2)
          refine ⟨?_, ?_⟩
          · calc (applyOps hc (AddOp.addPoint p1 p2 :: rest)).point_correspondences
                = (applyOps (hc.add_point_correspondence p1 p2)
                    rest).point_correspondences := rfl
              _ = (hc.add_point_correspondence p1 p2).point_correspondences ++
                    pointPairsOf rest := h.1
              _ = hc.point_correspondences ++
                    pointPairsOf (AddOp.addPoint p1 p2 :: rest) := by
                  simp [HomographyComputation.add_point_correspondence,
                    pointPairsOf, List.filterMap_cons]
          · calc (applyOps hc (AddOp.addPoint p1 p2 :: rest)).line_correspondences
                = (applyOps (hc.add_point_correspondence p1 p2)
                    rest).line_correspondences := rfl
              _ = (hc.add_point_correspondence p1 p2).line_correspondences ++
                    linePairsOf rest := h.2
              _ = hc.line_correspondences ++
                    linePairsOf (AddOp.addPoint p1 p2 :: rest) := by
                  simp [HomographyComputation.add_point_correspondence,
                    linePairsOf, List.filterMap_cons]
      | addLine l1 l2 =>
          have h := ih (hc.add_line_correspondence l1 l2)
          refine ⟨?_, ?_⟩
          · calc (applyOps hc (AddOp.addLine l1 l2 :: rest)).point_correspondences
                = (applyOps (hc.add_line_correspondence l1 l2)
                    rest).point_correspondences := rfl
              _ = (hc.add_line_correspondence l1 l2).point_correspondences ++
                    pointPairsOf rest := h.1
              _ = hc.point_correspondences ++
                    pointPairsOf (AddOp.addLine l1 l2 :: rest) := by
                  simp [HomographyComputation.add_line_correspondence,
                    pointPairsOf, List.filterMap_cons]
          · calc (applyOps hc (AddOp.addLine l1 l2 :: rest)).line_correspondences
                = (applyOps (hc.add_line_correspondence l1 l2)
                    rest).line_correspondences := rfl
              _ = (hc.add_line_correspondence l1 l2).line_correspondences ++
                    linePairsOf rest := h.2
              _ = hc.line_correspondences ++
                    linePairsOf (AddOp.addLine l1 l2 :: rest) := by
                  simp [HomographyComputation.add_line_correspondence,
                    linePairsOf, List.filterMap_cons]

/-- C9: however point- and line-adding calls are interleaved,
`get_restrictions` returns one block per correspondence, all point-pair
blocks first (in add order) then all line-pair blocks (in add order). -/
theorem get_restrictions_order (ops : List AddOp) :
    (applyOps HomographyComputation.new ops).get_restrictions.restrictions.length =
      (applyOps HomographyComputation.new ops).point_correspondences.length +
        (applyOps HomographyComputation.new ops).line_correspondences.length ∧
    (applyOps HomographyComputation.new ops).get_restrictions.restrictions =
      (pointPairsOf ops).map PointPair.generate_restriction ++
        (linePairsOf ops).map LinePair.generate_restriction := by
  have h := applyOps_state ops HomographyComputation.new
  refine ⟨?_, ?_⟩
  · simp [HomographyComputation.get_restrictions]
  · simp only [HomographyComputation.get_restrictions]
    rw [h.1, h.2]
    simp [HomographyComputation.new]

/-- C3: for a design matrix with at least 9 rows (so `V^T` is 9×9 and there
are 9 singular values), `solve` returns as `value` the last singular value —
the smallest, given the SVD routine's descending order — and as `matrix` the
last row of `V^T` reshaped so that entry `(i,j)` is element `3i+j`. -/
theorem solve_extracts_smallest (svd_fn : List (List ℚ) → SVD)
    (A : List (List ℚ)) (_hM : 9 ≤ A.length)
    (hvt : (svd_fn A).v_t.length = 9)
    (hsv : (svd_fn A).singular_values.length = 9)
    (hsorted : (svd_fn A).singular_values.Sorted (· ≥ ·)) :
    (solve svd_fn A).value ∈ (svd_fn A).singular_values ∧
    (∀ s ∈ (svd_fn A).singular_values, (solve svd_fn A).value ≤ s) ∧
    ∀ i j : Fin 3, (solve svd_fn A).matrix i j =
      ((svd_fn A).v_t.getD 8 []).getD (3 * i.val + j.val) 0 := by
  have h8 : (8 : Nat) < (svd_fn A).singular_values.length := by omega
  have hval : (solve svd_fn A).value =
      (svd_fn A).singular_values.get ⟨8, h8⟩ := by
    simp only [solve, hvt]
    rw [List.getD_eq_getElem?_getD, List.getElem?_eq_getElem h8]
    rfl
  refine ⟨?_, ?_, ?_⟩
  · rw [hval]
    exact List.get_mem _ _ _
  · intro s hs
    obtain ⟨k, hk, rfl⟩ := List.mem_iff_getElem.mp hs
    rw [hval]
    rcases Nat.lt_or_ge k 8 with hk8 | hk8
    · have hrel := hsorted.rel_get_of_lt
        (a := ⟨k, by omega⟩) (b := ⟨8, h8⟩) (by exact hk8)
      simpa [List.get_eq_getElem] using hrel
    · have hk9 : k = 8 := by omega
      subst hk9
      simp [List.get_eq_getElem]
  · intro i j
    have hmul : i.val * 3 + j.val = 3 * i.val + j.val := by ring
    simp only [solve, matrix3_transpose, matrix3_from_vec, hvt, hmul]

/-- Witness for C3 at a concrete SVD oracle and 9×9 zero design matrix. -/
theorem solve_extracts_smallest_witness :
    (solve (fun _ => SVD.mk (List.replicate 9 (List.replicate 9 (0 : ℚ)))
        [9, 8, 7, 6, 5, 4, 3, 2, 1])
      (List.replicate 9 (List.replicate 9 (0 : ℚ)))).value ∈
      ([9, 8, 7, 6, 5, 4, 3, 2, 1] : List ℚ) ∧
    (solve (fun _ => SVD.mk (List.replicate 9 (List.replicate 9 (0 : ℚ)))
        [9, 8, 7, 6, 5, 4, 3, 2, 1])
      (List.replicate 9 (List.replicate 9 (0 : ℚ)))).value ≤ (9 : ℚ) ∧
    (solve (fun _ => SVD.mk (List.replicate 9 (List.replicate 9 (0 : ℚ)))
        [9, 8, 7, 6, 5, 4, 3, 2, 1])
      (List.replicate 9 (List.replicate 9 (0 : ℚ)))).matrix 0 1 =
      ((List.replicate 9 (List.replicate 9 (0 : ℚ))).getD 8 []).getD 1 0 := by
  have h := solve_extracts_smallest
    (fun _ => SVD.mk (List.replicate 9 (List.replicate 9 (0 : ℚ)))
      [9, 8, 7, 6, 5, 4, 3, 2, 1])
    (List.replicate 9 (List.replicate 9 (0 : ℚ)))
    (by decide) (by decide) (by decide) (by decide)
  exact ⟨h.1, h.2.1 9 (by decide), h.2.2 0 1⟩

end Homography
